import Mathlib

/-
Verification development for the kocha `event` package (in-process, named-event
dispatch backed by pluggable background queues and a worker pool).

The Go source of event.go is embedded shallowly:
  - package-level mutable state (queues, handlerQueueNames, workers,
    workersPerQueue, the wait-group counters) becomes the `EvState` record,
    passed and returned explicitly;
  - the goroutine spawned by `Trigger` becomes an explicit `AsyncTask` value
    returned by `Trigger`; running the task (`runTask`) yields the value passed
    to the process-wide `ErrorHandler` (if any) and the number of
    `Queue.Enqueue` attempts performed;
  - `panic`/`recover` on the asynchronous path is modelled by `runTask`
    returning the recovered value in its first component (the code recovers
    every panic and forwards it to `ErrorHandler`);
  - `RegisterQueue`'s panics are modelled as `Except.error` (fatal: no
    successor state);
  - a pluggable queue backend is modelled by its observable behaviour: the
    result of `Enqueue` after any finite sequence of `New` instantiations;
  - the worker type and the payload codec live in Go files that are not part
    of the sources at hand (worker.go, payload.go); they are modelled from the
    specification, as marked on each such definition.
-/

/-- Error values of the Go code. `fmt.Errorf` results are modelled by
dedicated constructors carrying the formatted-in name; errors produced by a
queue backend or a handler are `backend`. -/
inductive GoErr where
  /-- ErrDone: "queue is done" sentinel, used for internal control. -/
  | done
  /-- ErrNotExist: "handler not exist", passed to ErrorHandler by a worker. -/
  | notExist
  /-- kocha: event: queue `queueName' isn't registered (AddHandler). -/
  | queueNotRegistered (queueName : String)
  /-- kocha: event: AddHandler called twice for handler `name`. -/
  | addHandlerTwice (name : String)
  /-- kocha: event: handler `name' isn't added (Trigger). -/
  | handlerNotAdded (name : String)
  /-- kocha: event: Register queue is nil (RegisterQueue panic value). -/
  | registerNilQueue
  /-- kocha: event: Register queue `name' is already registered (panic value). -/
  | alreadyRegistered (name : String)
  /-- encoding failed: the payload contained a non-serializable argument. -/
  | encodeUnsupported
  /-- decoding failed: the transported string is not a valid encoded payload. -/
  | decodeInvalid
  /-- an error value produced by a queue backend or by a handler. -/
  | backend (msg : String)
deriving DecidableEq, Repr

/-- Modelled from the spec: handler arguments are opaque `interface\x7b\x7d`
values; the codec "must round-trip arbitrary argument lists of heterogeneous,
serializable values" and an "encoding failure (e.g., non-serializable
argument)" is possible. We model a serializable value as `str` and a
non-serializable one (a channel-like Go value) as `chanLike`. -/
inductive Arg where
  | str (s : String)
  | chanLike (tag : String)
deriving DecidableEq, Repr

/-- A pluggable queue backend (the Go `Queue` interface), modelled by its
observable behaviour: `behavior path data` is the result of `Enqueue data`
(`none` is a nil error) on the instance obtained from the registered master
instance by the finite sequence `path` of `New` hints. Dequeue is blocking
and is modelled separately: a worker consumes a script of dequeue results. -/
structure Queue where
  behavior : List Int → String → Option GoErr

/-- Enqueue adds data to the queue (Go: `Enqueue(data string) error`). -/
def Queue.Enqueue (q : Queue) (data : String) : Option GoErr :=
  q.behavior [] data

/-- New returns a new Queue to launch the workers; `n` is a hint
(workers per queue). -/
def Queue.New (q : Queue) (n : Int) : Queue :=
  ⟨fun path => q.behavior (n :: path)⟩

/-- Go: `type handler func(args ...interface\x7b\x7d) error`. -/
abbrev handler : Type := List Arg → Option GoErr

/-- Go: `type handlerQueueName struct \x7b handler handler; queueName string \x7d`. -/
structure handlerQueueName where
  h : handler
  queueName : String

/-- Go: `payload` is the transient \x7bevent name, argument list\x7d record
serialized for transport through a queue. -/
structure payload where
  name : String
  args : List Arg
deriving DecidableEq, Repr

/-- Modelled from the spec: the payload codec (payload.go is not among the
sources). A chunk encodes one string with a length prefix in unary, so the
encoding of a payload is injective and executable; the spec fixes only the
contract `encode(name, args) -> data:String` / `decode(data) -> (name, args)`
with the round-trip law, treating the wire format as opaque. -/
def encChunk (s : List Char) : List Char :=
  List.replicate s.length '1' ++ ':' :: s

/-- Modelled from the spec: chunk decoder; `decChunkAux n cs` has already read
`n` length marks. Returns the decoded string and the rest of the input. -/
def decChunkAux : Nat → List Char → Option (List Char × List Char)
  | n, c :: rest =>
    if c = '1' then decChunkAux (n + 1) rest
    else if c = ':' then
      if rest.length < n then none else some (rest.take n, rest.drop n)
    else none
  | _, [] => none

/-- Modelled from the spec: decode one leading chunk. -/
def decChunk (cs : List Char) : Option (List Char × List Char) :=
  decChunkAux 0 cs

/-- Modelled from the spec: decode a whole string into its list of chunks.
`fuel` bounds the recursion; callers pass the input length, which suffices
because every chunk consumes at least one character. -/
def decChunksAux : Nat → List Char → Option (List (List Char))
  | _, [] => some []
  | 0, _ :: _ => none
  | fuel + 1, c :: cs =>
    match decChunk (c :: cs) with
    | none => none
    | some (s, rest) =>
      match decChunksAux fuel rest with
      | none => none
      | some l => some (s :: l)

/-- Modelled from the spec: the serializable view of an argument list; `none`
when some argument is non-serializable. -/
def argStrings : List Arg → Option (List String)
  | [] => some []
  | Arg.str s :: rest =>
    match argStrings rest with
    | some ss => some (s :: ss)
    | none => none
  | Arg.chanLike _ :: _ => none

/-- Modelled from the spec: `encode(name, args) -> data:String, error`;
fails when an argument is not serializable. -/
def payload.encode (p : payload) : Except GoErr String :=
  match argStrings p.args with
  | none => Except.error GoErr.encodeUnsupported
  | some ss =>
    Except.ok (String.mk (List.flatten ((p.name.data :: ss.map String.data).map encChunk)))

/-- Modelled from the spec: `decode(data:String) -> (name, args), error`;
the first chunk is the event name, the remaining chunks are the arguments. -/
def payload.decode (data : String) : Except GoErr payload :=
  match decChunksAux data.data.length data.data with
  | some (name :: args) =>
    Except.ok ⟨String.mk name, args.map (fun s => Arg.str (String.mk s))⟩
  | _ => Except.error GoErr.decodeInvalid

/-- A worker, with the fields of the `newWorker` call site in Start:
the queue name, the instance view obtained from `Queue.New`, and the
handler-registry snapshot (the wait-group pointer is bookkeeping and is
carried by the state's counters instead). -/
structure worker where
  queueName : String
  q : Queue
  hqn : List (String × handlerQueueName)

/-- The package-level state of event.go: `workersPerQueue`, `queues`,
`handlerQueueNames`, `workers`, and the pending-enqueue counter of
`wg.enqueue` (the dequeue counter tracks live worker loops and appears only
in the shutdown trace). -/
structure EvState where
  workersPerQueue : Int
  queues : List (String × Queue)
  handlerQueueNames : List (String × handlerQueueName)
  workers : List worker
  pendingEnqueues : Nat

/-- Go map indexing `m[k]`: the first binding of `k`, `none` when absent
(a nil interface value in Go). -/
def mapGet (k : String) : List (String × α) → Option α
  | [] => none
  | (k', v) :: rest => if k = k' then some v else mapGet k rest

/-- AddHandler adds a handler related to `name` and the queue registered under
`queueName`; errors when the queue is not registered or the name is already
bound (event.go lines 32-42). -/
def AddHandler (st : EvState) (name : String) (queueName : String)
    (hdl : handler) : EvState × Option GoErr :=
  match mapGet queueName st.queues with
  | none => (st, some (GoErr.queueNotRegistered queueName))
  | some _ =>
    match mapGet name st.handlerQueueNames with
    | some _ => (st, some (GoErr.addHandlerTwice name))
    | none =>
      ({ st with handlerQueueNames :=
          (name, ⟨hdl, queueName⟩) :: st.handlerQueueNames }, none)

/-- The asynchronous unit of work spawned by Trigger: the queue looked up for
the binding (nil when absent) and the payload to encode and enqueue. -/
structure AsyncTask where
  queue : Option Queue
  pld : payload

/-- Trigger emits the event (event.go lines 48-67): synchronous error when
`name` has no binding; otherwise it increments the pending-enqueue counter
and spawns the asynchronous task. The triple is (new state, synchronous
return value, spawned task). -/
def Trigger (st : EvState) (name : String) (args : List Arg) :
    EvState × Option GoErr × Option AsyncTask :=
  match mapGet name st.handlerQueueNames with
  | none => (st, some (GoErr.handlerNotAdded name), none)
  | some hq =>
    ({ st with pendingEnqueues := st.pendingEnqueues + 1 },
     none,
     some ⟨mapGet hq.queueName st.queues, ⟨name, args⟩⟩)

/-- enqueue encodes the payload and enqueues the data (event.go lines 77-83);
`none` is a nil error. -/
def enqueue (queue : Queue) (pld : payload) : Option GoErr :=
  match pld.encode with
  | Except.error e => some e
  | Except.ok data => queue.Enqueue data

/-- The number of `Queue.Enqueue` calls `enqueue` performs: one unless
encoding fails first. -/
def enqueueAttempts (pld : payload) : Nat :=
  match pld.encode with
  | Except.ok _ => 1
  | Except.error _ => 0

/-- Running the goroutine body of Trigger (event.go lines 55-65): the result
of `enqueue` is panicked and recovered, so the first component is the value
passed to `ErrorHandler` (`none` when nothing is reported), the second the
number of `Queue.Enqueue` attempts. On a nil queue the method call itself
panics at runtime (recovered like any other panic); encoding runs first. -/
def runTask (t : AsyncTask) : Option GoErr × Nat :=
  match t.queue with
  | none =>
    match t.pld.encode with
    | Except.error e => (some e, 0)
    | Except.ok _ => (some (GoErr.backend "runtime error: nil pointer dereference"), 0)
  | some q => (enqueue q t.pld, enqueueAttempts t.pld)

/-- Start starts the background event workers (event.go lines 88-96): for
every registered queue, `workersPerQueue` times, a worker is created with an
instance view `queue.New(workersPerQueue)` and the handler-registry snapshot,
and appended to the worker collection; its loop is launched concurrently
(the launched loops are exactly the appended workers). -/
def Start (st : EvState) : EvState :=
  { st with workers := st.workers ++
      (st.queues.map (fun nq =>
        (List.range st.workersPerQueue.toNat).map (fun _ =>
          ({ queueName := nq.1, q := nq.2.New st.workersPerQueue,
             hqn := st.handlerQueueNames } : worker)))).flatten }

/-- SetWorkersPerQueue clamps to a minimum of 1 (event.go lines 100-105). -/
def SetWorkersPerQueue (st : EvState) (n : Int) : EvState :=
  { st with workersPerQueue := if n < 1 then 1 else n }

/-- RegisterQueue makes a queue available by name; it panics when the queue is
nil or the name is taken (event.go lines 139-147). A panic is fatal:
`Except.error` carries the panic value and there is no successor state. -/
def RegisterQueue (st : EvState) (name : String) (queue : Option Queue) :
    Except GoErr EvState :=
  match queue with
  | none => Except.error GoErr.registerNilQueue
  | some q =>
    match mapGet name st.queues with
    | some _ => Except.error (GoErr.alreadyRegistered name)
    | none => Except.ok { st with queues := (name, q) :: st.queues }

/-- The observable shutdown steps of Stop, in execution order. -/
inductive StopAction where
  | waitEnqueues
  | stopWorker (w : worker)
  | waitDequeues
  | clearWorkers

/-- The ordered trace of Stop (event.go lines 108-117), translated from its
control flow: `wg.enqueue.Wait()` runs first; then two defers are registered
(clear the worker collection, then `wg.dequeue.Wait()`); then every worker in
the collection is stopped; on return the defers run in LIFO order. -/
def StopTrace (st : EvState) : List StopAction :=
  let deferred : List (List StopAction) := []
  let trace : List StopAction := [StopAction.waitEnqueues]
  let deferred := [StopAction.clearWorkers] :: deferred
  let deferred := [StopAction.waitDequeues] :: deferred
  let trace := trace ++ st.workers.map StopAction.stopWorker
  trace ++ deferred.flatten

/-- The state after Stop returns: the worker collection is cleared
(`workers = nil`); registries and configuration are untouched. -/
def Stop (st : EvState) : EvState :=
  { st with workers := [] }

/-- Modelled from the spec: one result of a (blocking) `Dequeue()` call on a
worker's queue instance view — either a data item or an error (worker.go is
not among the sources, so the backend's dequeue stream is a script). -/
inductive DeqRes where
  | item (data : String)
  | err (e : GoErr)
deriving DecidableEq, Repr

/-- An observable effect of a worker loop iteration: a value reported to the
process-wide ErrorHandler, or a handler invocation with its arguments and
result. -/
inductive Event where
  | reported (e : GoErr)
  | invoked (name : String) (args : List Arg) (res : Option GoErr)

/-- Whether an event is a handler invocation. -/
def Event.isInvoked : Event → Bool
  | Event.invoked _ _ _ => true
  | Event.reported _ => false

/-- Modelled from the spec: one iteration of the worker loop (worker.go is not
among the sources). On the "queue is done" sentinel the loop exits cleanly
(`none`); on any other dequeue error it reports and continues; on a decode
failure it reports and continues; on a dequeued name with no binding it
reports ErrNotExist and continues; otherwise it invokes the handler, and a
handler error is reported. -/
def workerStep (hqn : List (String × handlerQueueName)) : DeqRes → Option (List Event)
  | DeqRes.err e =>
    if e = GoErr.done then none else some [Event.reported e]
  | DeqRes.item data =>
    match payload.decode data with
    | Except.error e => some [Event.reported e]
    | Except.ok pld =>
      match mapGet pld.name hqn with
      | none => some [Event.reported GoErr.notExist]
      | some hq =>
        match hq.h pld.args with
        | some e => some [Event.invoked pld.name pld.args (some e), Event.reported e]
        | none => some [Event.invoked pld.name pld.args none]

/-- Modelled from the spec: the worker loop run over a finite script of
dequeue results; the Bool is true when the loop exited on the "done"
sentinel. -/
def workerRun (hqn : List (String × handlerQueueName)) :
    List DeqRes → List Event × Bool
  | [] => ([], false)
  | r :: rest =>
    match workerStep hqn r with
    | none => ([], true)
    | some evs => (evs ++ (workerRun hqn rest).1, (workerRun hqn rest).2)

/-- The registry invariant: every bound queue name maps to a (non-nil) queue
in the queue registry. -/
def RegInv (st : EvState) : Prop :=
  ∀ name hq, mapGet name st.handlerQueueNames = some hq →
    ∃ q, mapGet hq.queueName st.queues = some q

/-- Chunk decoding inverts chunk encoding: reading `n` unary marks with `k`
already counted leaves take/drop at `k + n`. -/
theorem decChunkAux_replicate (n : Nat) :
    ∀ (k : Nat) (r : List Char), k + n ≤ r.length →
      decChunkAux k (List.replicate n '1' ++ ':' :: r) =
        some (r.take (k + n), r.drop (k + n)) := by
  induction n with
  | zero =>
    intro k r hr
    have h1 : decChunkAux k (List.replicate 0 '1' ++ ':' :: r) =
        if r.length < k then none else some (r.take k, r.drop k) := by
      simp [decChunkAux]
    rw [h1, if_neg (by omega)]
    simp
  | succ m ih =>
    intro k r hr
    rw [List.replicate_succ, List.cons_append]
    have h1 : decChunkAux k ('1' :: (List.replicate m '1' ++ ':' :: r)) =
        decChunkAux (k + 1) (List.replicate m '1' ++ ':' :: r) := by
      simp [decChunkAux]
    have h2 := ih (k + 1) r (by omega)
    rw [show k + 1 + m = k + (m + 1) by omega] at h2
    rw [h1, h2]

/-- Decoding one chunk from an encoded chunk followed by anything returns the
chunk's string and the remainder. -/
theorem decChunk_encChunk (s t : List Char) :
    decChunk (encChunk s ++ t) = some (s, t) := by
  have h := decChunkAux_replicate s.length 0 (s ++ t) (by simp)
  simp only [Nat.zero_add] at h
  simpa [decChunk, encChunk, List.append_assoc, List.take_left, List.drop_left] using h

/-- An encoded chunk is never empty. -/
theorem encChunk_ne_nil (s : List Char) : encChunk s ≠ [] := by
  cases s with
  | nil => simp [encChunk]
  | cons c cs => simp [encChunk]

/-- Decoding a concatenation of encoded chunks returns the list of strings,
for any sufficient fuel. -/
theorem decChunksAux_encoded (L : List (List Char)) :
    ∀ fuel, (List.flatten (L.map encChunk)).length ≤ fuel →
      decChunksAux fuel (List.flatten (L.map encChunk)) = some L := by
  induction L with
  | nil =>
    intro fuel _
    cases fuel <;> simp [decChunksAux]
  | cons s L' ih =>
    intro fuel hfuel
    have hne : encChunk s ≠ [] := encChunk_ne_nil s
    have hflat : List.flatten ((s :: L').map encChunk) =
        encChunk s ++ List.flatten (L'.map encChunk) := by
      simp
    rw [hflat] at hfuel ⊢
    obtain ⟨c, cs, hcs⟩ : ∃ c cs, encChunk s ++ List.flatten (L'.map encChunk) = c :: cs := by
      cases h : encChunk s with
      | nil => exact absurd h hne
      | cons c cs => exact ⟨c, cs ++ List.flatten (L'.map encChunk), by simp [h]⟩
    have hlen : 1 ≤ (encChunk s).length := by
      cases h : encChunk s with
      | nil => exact absurd h hne
      | cons _ _ => simp
    have hfuel1 : 1 ≤ fuel := by
      rw [hcs] at hfuel
      simp at hfuel
      omega
    obtain ⟨f, rfl⟩ : ∃ f, fuel = f + 1 := ⟨fuel - 1, by omega⟩
    rw [hcs]
    have hstep : decChunk (c :: cs) = some (s, List.flatten (L'.map encChunk)) := by
      rw [← hcs]; exact decChunk_encChunk s _
    have hrest : decChunksAux f (List.flatten (L'.map encChunk)) = some L' := by
      apply ih
      have : (encChunk s ++ List.flatten (L'.map encChunk)).length =
          (encChunk s).length + (List.flatten (L'.map encChunk)).length := by simp
      omega
    simp [decChunksAux, hstep, hrest]

/-- A serializable argument list is the `Arg.str` image of its string view. -/
theorem argStrings_spec (args : List Arg) :
    (∀ a ∈ args, ∃ s, a = Arg.str s) →
      ∃ ss, argStrings args = some ss ∧ ss.map Arg.str = args := by
  induction args with
  | nil => intro _; exact ⟨[], rfl, rfl⟩
  | cons a rest ih =>
    intro hall
    obtain ⟨s, rfl⟩ := hall a (List.mem_cons_self a rest)
    obtain ⟨ss, hss, hmap⟩ := ih (fun x hx => hall x (List.mem_cons_of_mem _ hx))
    exact ⟨s :: ss, by simp [argStrings, hss], by simp [hmap]⟩


/-- A successful string view maps back to the original argument list. -/
theorem argStrings_map (args : List Arg) :
    ∀ ss, argStrings args = some ss → ss.map Arg.str = args := by
  induction args with
  | nil =>
    intro ss h
    simp [argStrings] at h
    simp [← h]
  | cons a rest ih =>
    intro ss h
    cases a with
    | str s =>
      cases hrest : argStrings rest with
      | none => simp [argStrings, hrest] at h
      | some ssr =>
        simp [argStrings, hrest] at h
        rw [← h]
        simp [ih ssr hrest]
    | chanLike t => simp [argStrings] at h

/-- The payload codec round-trips: decoding an encoding recovers the payload
(the round-trip law of the spec). -/
theorem payload_decode_encode (p : payload) (d : String)
    (h : p.encode = Except.ok d) : payload.decode d = Except.ok p := by
  unfold payload.encode at h
  cases hs : argStrings p.args with
  | none => rw [hs] at h; exact absurd h (by simp)
  | some ss =>
    rw [hs] at h
    have hd : String.mk (List.flatten ((p.name.data :: ss.map String.data).map encChunk)) = d :=
      Except.ok.inj h
    rw [← hd]
    unfold payload.decode
    rw [show (String.mk (List.flatten ((p.name.data :: ss.map String.data).map encChunk))).data =
        List.flatten ((p.name.data :: ss.map String.data).map encChunk) from rfl]
    rw [decChunksAux_encoded _ _ (le_refl _)]
    have hargs : (ss.map String.data).map (fun s => Arg.str (String.mk s)) = p.args := by
      rw [List.map_map]
      have hcomp : ((fun s => Arg.str (String.mk s)) ∘ String.data) = Arg.str := by
        funext s
        rfl
      rw [hcomp]
      exact argStrings_map p.args ss hs
    show Except.ok ⟨String.mk p.name.data,
        (ss.map String.data).map (fun s => Arg.str (String.mk s))⟩ = Except.ok p
    rw [hargs]

/-- Length of a flattened map whose pieces all have the same length. -/
theorem length_flatten_const {α β : Type} (l : List α) (f : α → List β) (k : Nat)
    (hk : ∀ a, (f a).length = k) : (List.flatten (l.map f)).length = l.length * k := by
  induction l with
  | nil => simp
  | cons x xs ih => simp [ih, hk, Nat.succ_mul, Nat.add_comm]

/-- Start appends one worker per queue per configured worker count. -/
theorem Start_workers_length (st : EvState) :
    (Start st).workers.length =
      st.workers.length + st.queues.length * st.workersPerQueue.toNat := by
  unfold Start
  rw [List.length_append]
  rw [length_flatten_const st.queues _ st.workersPerQueue.toNat (fun a => by simp)]

/-- A worker step is a clean exit exactly on the "done" sentinel. -/
theorem workerStep_continue (hqn : List (String × handlerQueueName)) (r : DeqRes)
    (hr : r ≠ DeqRes.err GoErr.done) : workerStep hqn r ≠ none := by
  cases r with
  | item data =>
    unfold workerStep
    cases hd : payload.decode data with
    | error e => simp [hd]
    | ok pld =>
      cases hm : mapGet pld.name hqn with
      | none => simp [hd, hm]
      | some hq => cases hh : hq.h pld.args <;> simp [hd, hm, hh]
  | err e =>
    have he : e ≠ GoErr.done := fun h => hr (by rw [h])
    simp [workerStep, he]

/-- The worker loop exits before the end of a script exactly when the script
contains the "done" sentinel. -/
theorem workerRun_done_iff (hqn : List (String × handlerQueueName)) :
    ∀ script, (workerRun hqn script).2 = true ↔ DeqRes.err GoErr.done ∈ script := by
  intro script
  induction script with
  | nil => simp [workerRun]
  | cons r rest ih =>
    by_cases hr : r = DeqRes.err GoErr.done
    · subst hr
      simp [workerRun, workerStep]
    · cases hstep : workerStep hqn r with
      | none => exact absurd hstep (workerStep_continue hqn r hr)
      | some evs =>
        rw [show workerRun hqn (r :: rest) =
            (evs ++ (workerRun hqn rest).1, (workerRun hqn rest).2) from by
          simp [workerRun, hstep]]
        rw [List.mem_cons]
        constructor
        · intro h2
          exact Or.inr (ih.mp h2)
        · rintro (h2 | h2)
          · exact absurd h2.symm hr
          · exact ih.mpr h2

/-- An always-succeeding in-memory queue backend used by concrete witnesses. -/
def memQueue : Queue := ⟨fun _ _ => none⟩

/-- A handler that always succeeds, used by concrete witnesses. -/
def okHandler : handler := fun _ => none

/-- A fresh state with one registered queue and no handler bindings. -/
def st0 : EvState :=
  { workersPerQueue := 1, queues := [("mem", memQueue)],
    handlerQueueNames := [], workers := [], pendingEnqueues := 0 }

/-- A state with one registered queue and one handler binding. -/
def st1 : EvState :=
  { workersPerQueue := 1, queues := [("mem", memQueue)],
    handlerQueueNames := [("log.error", ⟨okHandler, "mem"⟩)], workers := [],
    pendingEnqueues := 0 }

/-- C3: Trigger on an event name with no handler binding returns a non-nil
error synchronously, spawns no asynchronous task (hence zero enqueue
attempts), and returns the state unchanged — queue registry, handler
registry, worker collection and pending counter included. -/
theorem trigger_unregistered_no_side_effects (st : EvState) (name : String)
    (args : List Arg) (h : mapGet name st.handlerQueueNames = none) :
    Trigger st name args = (st, some (GoErr.handlerNotAdded name), none) := by
  simp [Trigger, h]

/-- Witness for C3 at a concrete state with no binding for "log.error". -/
theorem trigger_unregistered_no_side_effects_witness :
    Trigger st0 "log.error" [Arg.str "boom"] =
      (st0, some (GoErr.handlerNotAdded "log.error"), none) :=
  trigger_unregistered_no_side_effects st0 "log.error" [Arg.str "boom"] rfl

/-- C5: AddHandler fails (state unchanged, original binding intact) when the
queue name is unregistered or the event name is already bound; otherwise it
inserts the \x7bhandler, queueName\x7d binding and returns a nil error. -/
theorem addhandler_cases (st : EvState) (name queueName : String) (hdl : handler) :
    (mapGet queueName st.queues = none →
      AddHandler st name queueName hdl = (st, some (GoErr.queueNotRegistered queueName)))
    ∧ (∀ q hq, mapGet queueName st.queues = some q →
        mapGet name st.handlerQueueNames = some hq →
        AddHandler st name queueName hdl = (st, some (GoErr.addHandlerTwice name)) ∧
          mapGet name (AddHandler st name queueName hdl).1.handlerQueueNames = some hq)
    ∧ (∀ q, mapGet queueName st.queues = some q →
        mapGet name st.handlerQueueNames = none →
        AddHandler st name queueName hdl =
          ({ st with handlerQueueNames :=
              (name, ⟨hdl, queueName⟩) :: st.handlerQueueNames }, none)) := by
  refine ⟨fun h => by simp [AddHandler, h], fun q hq h1 h2 => ?_, fun q h1 h2 => by
    simp [AddHandler, h1, h2]⟩
  constructor
  · simp [AddHandler, h1, h2]
  · simp [AddHandler, h1, h2]

/-- Witness for C5: at a concrete state, an unregistered queue is rejected and
a duplicate handler registration is rejected with the binding intact. -/
theorem addhandler_cases_witness :
    (AddHandler st0 "log.error" "files" okHandler =
      (st0, some (GoErr.queueNotRegistered "files")))
    ∧ (AddHandler st1 "log.error" "mem" okHandler =
      (st1, some (GoErr.addHandlerTwice "log.error"))) :=
  ⟨(addhandler_cases st0 "log.error" "files" okHandler).1 rfl,
   ((addhandler_cases st1 "log.error" "mem" okHandler).2.1 memQueue
      ⟨okHandler, "mem"⟩ rfl rfl).1⟩

/-- C6: RegisterQueue panics (fatal, no successor state) on a nil queue and on
an already-registered name; otherwise it inserts the queue under the name and
changes nothing else. -/
theorem registerqueue_cases (st : EvState) (name : String) :
    RegisterQueue st name none = Except.error GoErr.registerNilQueue
    ∧ (∀ q prev, mapGet name st.queues = some prev →
        RegisterQueue st name (some q) = Except.error (GoErr.alreadyRegistered name))
    ∧ (∀ q, mapGet name st.queues = none →
        RegisterQueue st name (some q) =
          Except.ok { st with queues := (name, q) :: st.queues }) := by
  refine ⟨rfl, fun q prev h => by simp [RegisterQueue, h], fun q h => by
    simp [RegisterQueue, h]⟩

/-- Witness for C6: re-registering "mem" is fatal, registering a fresh name
succeeds, at a concrete state. -/
theorem registerqueue_cases_witness :
    RegisterQueue st0 "mem" (some memQueue) =
      Except.error (GoErr.alreadyRegistered "mem")
    ∧ RegisterQueue st0 "disk" (some memQueue) =
      Except.ok { st0 with queues := ("disk", memQueue) :: st0.queues } :=
  ⟨(registerqueue_cases st0 "mem").2.1 memQueue memQueue rfl,
   (registerqueue_cases st0 "disk").2.2 memQueue rfl⟩

/-- C2: when the event name has a binding, Trigger returns a nil error for all
argument lists and spawns the asynchronous task; any failure of that task —
encode error, enqueue error (panicked and recovered by the task's guard) — is
the value passed to the process-wide ErrorHandler (the first component of
`runTask`) and never the synchronous return value, which is fixed at nil
regardless of the backend's behaviour. -/
theorem trigger_bound_async_errors (st : EvState) (name : String)
    (args : List Arg) (hq : handlerQueueName)
    (hbind : mapGet name st.handlerQueueNames = some hq) :
    (Trigger st name args).2.1 = none
    ∧ (Trigger st name args).2.2 =
        some ⟨mapGet hq.queueName st.queues, ⟨name, args⟩⟩
    ∧ (∀ t, (Trigger st name args).2.2 = some t →
        (∀ e, t.pld.encode = Except.error e → (runTask t).1 = some e)
        ∧ (∀ q data e, t.queue = some q → t.pld.encode = Except.ok data →
            q.Enqueue data = some e → (runTask t).1 = some e)
        ∧ (∀ q data, t.queue = some q → t.pld.encode = Except.ok data →
            q.Enqueue data = none → (runTask t).1 = none)) := by
  refine ⟨by simp [Trigger, hbind], by simp [Trigger, hbind], fun t _ => ⟨?_, ?_, ?_⟩⟩
  · intro e he
    cases hqu : t.queue with
    | none => simp [runTask, hqu, he]
    | some q => simp [runTask, hqu, enqueue, he]
  · intro q data e hqu he henq
    simp [runTask, hqu, enqueue, he, henq]
  · intro q data hqu he henq
    simp [runTask, hqu, enqueue, he, henq]

/-- Witness for C2: at a concrete bound state, Trigger returns nil and the
spawned task's success reports nothing to the ErrorHandler. -/
theorem trigger_bound_async_errors_witness :
    (Trigger st1 "log.error" [Arg.str "boom"]).2.1 = none
    ∧ (runTask ⟨some memQueue, ⟨"log.error", [Arg.str "boom"]⟩⟩).1 = none :=
  ⟨(trigger_bound_async_errors st1 "log.error" [Arg.str "boom"]
      ⟨okHandler, "mem"⟩ rfl).1,
   ((trigger_bound_async_errors st1 "log.error" [Arg.str "boom"]
      ⟨okHandler, "mem"⟩ rfl).2.2 ⟨some memQueue, ⟨"log.error", [Arg.str "boom"]⟩⟩
      rfl).2.2 memQueue _ rfl rfl rfl⟩

/-- C4: a Trigger call that returns nil (the binding exists, and the bound
queue is registered) causes exactly one `Queue.Enqueue` attempt on its
asynchronous task — unless encoding fails first, in which case zero attempts
are made and the encoding failure is the value reported to the
ErrorHandler. -/
theorem trigger_exactly_one_enqueue (st : EvState) (name : String)
    (args : List Arg) (hq : handlerQueueName) (q : Queue) (t : AsyncTask)
    (h1 : mapGet name st.handlerQueueNames = some hq)
    (h2 : mapGet hq.queueName st.queues = some q)
    (h3 : (Trigger st name args).2.2 = some t) :
    ((∃ d, t.pld.encode = Except.ok d) → (runTask t).2 = 1)
    ∧ (∀ e, t.pld.encode = Except.error e →
        (runTask t).2 = 0 ∧ (runTask t).1 = some e) := by
  have ht : t = ⟨some q, ⟨name, args⟩⟩ := by
    simp [Trigger, h1, h2] at h3
    exact h3.symm
  subst ht
  constructor
  · rintro ⟨d, hd⟩
    simp [runTask, enqueueAttempts, hd]
  · intro e he
    simp [runTask, enqueueAttempts, enqueue, he]

/-- Witness for C4: at a concrete bound state with serializable arguments,
the task performs exactly one enqueue attempt. -/
theorem trigger_exactly_one_enqueue_witness :
    (runTask ⟨some memQueue, ⟨"log.error", [Arg.str "boom"]⟩⟩).2 = 1 :=
  (trigger_exactly_one_enqueue st1 "log.error" [Arg.str "boom"]
      ⟨okHandler, "mem"⟩ memQueue ⟨some memQueue, ⟨"log.error", [Arg.str "boom"]⟩⟩
      rfl rfl rfl).1 ⟨_, rfl⟩

/-- C7: Start on a state whose worker collection is empty (the documented
"call once" precondition) appends exactly one worker per registered queue per
configured `workersPerQueue`; every appended worker carries its queue's name,
the instance view `Queue.New workersPerQueue`, and the handler-registry
snapshot, and the launched loops are exactly the appended workers. The
registries are untouched. -/
theorem start_worker_pool (st : EvState) (hw : st.workers = []) :
    (Start st).workers.length = st.queues.length * st.workersPerQueue.toNat
    ∧ (∀ w, w ∈ (Start st).workers → ∃ p, p ∈ st.queues ∧
        w = ⟨p.1, p.2.New st.workersPerQueue, st.handlerQueueNames⟩)
    ∧ (Start st).queues = st.queues
    ∧ (Start st).handlerQueueNames = st.handlerQueueNames := by
  refine ⟨by rw [Start_workers_length, hw]; simp, ?_, rfl, rfl⟩
  intro w hwmem
  simp only [Start, hw, List.nil_append, List.mem_flatten, List.mem_map] at hwmem
  obtain ⟨l, ⟨p, hp, rfl⟩, hwl⟩ := hwmem
  simp only [List.mem_map, List.mem_range] at hwl
  obtain ⟨i, _, rfl⟩ := hwl
  exact ⟨p, hp, rfl⟩

/-- Witness for C7: starting the concrete one-queue state yields exactly one
worker (one queue, one worker per queue). -/
theorem start_worker_pool_witness :
    (Start st1).workers.length = st1.queues.length * st1.workersPerQueue.toNat :=
  (start_worker_pool st1 rfl).1

/-- C8: the shutdown trace of Stop is, in order: wait for all pending
asynchronous Trigger enqueues, stop every worker in the collection, wait for
every worker loop to exit, clear the worker collection (the two waits are
deferred in the source and run in LIFO order after the stop loop). After Stop
the worker collection is empty and the registries are untouched, so a
subsequent Start creates a fresh worker pool for every still-registered
queue. -/
theorem stop_ordering_and_restart (st : EvState) :
    StopTrace st = StopAction.waitEnqueues ::
        (st.workers.map StopAction.stopWorker ++
          [StopAction.waitDequeues, StopAction.clearWorkers])
    ∧ Stop st = { st with workers := [] }
    ∧ (Stop st).queues = st.queues
    ∧ (Stop st).handlerQueueNames = st.handlerQueueNames
    ∧ (Start (Stop st)).workers.length =
        st.queues.length * st.workersPerQueue.toNat := by
  refine ⟨by simp [StopTrace], rfl, rfl, rfl, ?_⟩
  rw [Start_workers_length]
  simp [Stop]

/-- C9: a worker loop terminates exactly when its dequeue script contains the
"queue is done" sentinel; every other dequeue error, every decode failure,
a dequeued name with no binding (reported as ErrNotExist), and a handler
error are each reported to the ErrorHandler while the loop continues with
the rest of the script. -/
theorem worker_loop_termination (hqn : List (String × handlerQueueName))
    (script : List DeqRes) :
    ((workerRun hqn script).2 = true ↔ DeqRes.err GoErr.done ∈ script)
    ∧ workerStep hqn (DeqRes.err GoErr.done) = none
    ∧ (∀ e, e ≠ GoErr.done →
        workerStep hqn (DeqRes.err e) = some [Event.reported e])
    ∧ (∀ data e, payload.decode data = Except.error e →
        workerStep hqn (DeqRes.item data) = some [Event.reported e])
    ∧ (∀ data pld, payload.decode data = Except.ok pld →
        mapGet pld.name hqn = none →
        workerStep hqn (DeqRes.item data) = some [Event.reported GoErr.notExist])
    ∧ (∀ data pld hq e, payload.decode data = Except.ok pld →
        mapGet pld.name hqn = some hq → hq.h pld.args = some e →
        workerStep hqn (DeqRes.item data) =
          some [Event.invoked pld.name pld.args (some e), Event.reported e])
    ∧ (∀ r evs rest, workerStep hqn r = some evs →
        workerRun hqn (r :: rest) =
          (evs ++ (workerRun hqn rest).1, (workerRun hqn rest).2)) := by
  refine ⟨workerRun_done_iff hqn script, by simp [workerStep], ?_, ?_, ?_, ?_, ?_⟩
  · intro e he
    simp [workerStep, he]
  · intro data e hd
    unfold workerStep
    simp [hd]
  · intro data pld hd hm
    unfold workerStep
    simp [hd, hm]
  · intro data pld hq e hd hm hh
    unfold workerStep
    simp [hd, hm, hh]
  · intro r evs rest hstep
    simp [workerRun, hstep]

/-- Witness for C9: a concrete script ending in the done sentinel terminates,
and a backend error step is reported while the loop does not exit. -/
theorem worker_loop_termination_witness :
    ((workerRun [] [DeqRes.err (GoErr.backend "io"), DeqRes.err GoErr.done]).2 = true
      ↔ DeqRes.err GoErr.done ∈
          [DeqRes.err (GoErr.backend "io"), DeqRes.err GoErr.done])
    ∧ workerStep [] (DeqRes.err (GoErr.backend "io")) =
        some [Event.reported (GoErr.backend "io")] :=
  ⟨(worker_loop_termination []
      [DeqRes.err (GoErr.backend "io"), DeqRes.err GoErr.done]).1,
   (worker_loop_termination []
      [DeqRes.err (GoErr.backend "io"), DeqRes.err GoErr.done]).2.2.1
      (GoErr.backend "io") (by decide)⟩

/-- C10: the registry invariant — every bound queue name maps to a (non-nil)
registered queue — is preserved by every operation: RegisterQueue (on its
non-panicking path), AddHandler, Trigger, Start, Stop and SetWorkersPerQueue;
consequently the queue a Trigger task captures for a bound event name is
never nil. -/
theorem registry_invariant_preserved (st : EvState) (hInv : RegInv st) :
    (∀ n q st', RegisterQueue st n q = Except.ok st' → RegInv st')
    ∧ (∀ n qn hdl, RegInv (AddHandler st n qn hdl).1)
    ∧ (∀ n args, RegInv (Trigger st n args).1)
    ∧ RegInv (Start st)
    ∧ RegInv (Stop st)
    ∧ (∀ n, RegInv (SetWorkersPerQueue st n))
    ∧ (∀ n args hq t, mapGet n st.handlerQueueNames = some hq →
        (Trigger st n args).2.2 = some t → ∃ q, t.queue = some q) := by
  refine ⟨?_, ?_, ?_, hInv, hInv, fun n => hInv, ?_⟩
  · intro n q st' hreg
    cases q with
    | none => cases hreg
    | some q' =>
      cases hn : mapGet n st.queues with
      | some prev => rw [RegisterQueue, hn] at hreg; cases hreg
      | none =>
        rw [RegisterQueue, hn] at hreg
        cases hreg
        intro name hq hb
        obtain ⟨q0, hq0⟩ := hInv name hq hb
        by_cases hqn : hq.queueName = n
        · exact ⟨q', by simp [mapGet, hqn]⟩
        · exact ⟨q0, by simp [mapGet, hqn, hq0]⟩
  · intro n qn hdl
    cases hqreg : mapGet qn st.queues with
    | none => simp only [AddHandler, hqreg]; exact hInv
    | some q0 =>
      cases hb : mapGet n st.handlerQueueNames with
      | some prev => simp only [AddHandler, hqreg, hb]; exact hInv
      | none =>
        simp only [AddHandler, hqreg, hb]
        intro name hq hlook
        simp only [mapGet] at hlook
        by_cases hn : name = n
        · rw [if_pos hn] at hlook
          cases hlook
          exact ⟨q0, hqreg⟩
        · rw [if_neg hn] at hlook
          exact hInv name hq hlook
  · intro n args
    cases hb : mapGet n st.handlerQueueNames with
    | none => simp only [Trigger, hb]; exact hInv
    | some hq => simp only [Trigger, hb]; exact hInv
  · intro n args hq t hb ht
    simp only [Trigger, hb] at ht
    obtain ⟨q, hq2⟩ := hInv n hq hb
    cases ht
    exact ⟨q, by simp [hq2]⟩

/-- Witness for C10: the concrete bound state satisfies the invariant, and it
is preserved by Start there. -/
theorem registry_invariant_preserved_witness :
    RegInv (Start st1) ∧ RegInv (Stop st1) := by
  have hInv : RegInv st1 := by
    intro name hq hb
    simp only [st1, mapGet] at hb
    by_cases hn : name = "log.error"
    · rw [if_pos hn] at hb
      cases hb
      exact ⟨memQueue, rfl⟩
    · rw [if_neg hn] at hb
      cases hb
  exact ⟨(registry_invariant_preserved st1 hInv).2.2.2.1,
    (registry_invariant_preserved st1 hInv).2.2.2.2.1⟩

/-- On a successfully decoded item whose name is bound, the worker invokes
the bound handler, reporting a handler error when there is one. -/
theorem workerStep_invoke (hqn : List (String × handlerQueueName)) (data : String)
    (pld : payload) (hq : handlerQueueName)
    (hd : payload.decode data = Except.ok pld)
    (hm : mapGet pld.name hqn = some hq) :
    workerStep hqn (DeqRes.item data) =
      some (Event.invoked pld.name pld.args (hq.h pld.args) ::
        (match hq.h pld.args with
         | some e => [Event.reported e]
         | none => [])) := by
  unfold workerStep
  cases hh : hq.h pld.args <;> simp [hd, hm, hh]

/-- C1: for a registered queue name and a fresh event name, AddHandler
succeeds and a subsequent Trigger succeeds and spawns a task whose payload
encodes successfully; decoding the transported data recovers exactly the
event name and argument list (codec round-trip), and the worker step on that
data invokes the registered handler exactly once, with the argument list
identical to the one passed to Trigger. Serializable arguments are assumed,
as the spec's round-trip law requires. -/
theorem addhandler_trigger_invokes_once (st : EvState) (name queueName : String)
    (hdl : handler) (args : List Arg) (q : Queue)
    (hqreg : mapGet queueName st.queues = some q)
    (hfresh : mapGet name st.handlerQueueNames = none)
    (hser : ∀ a ∈ args, ∃ s, a = Arg.str s) :
    (AddHandler st name queueName hdl).2 = none
    ∧ (Trigger (AddHandler st name queueName hdl).1 name args).2.1 = none
    ∧ ∃ t data evs,
        (Trigger (AddHandler st name queueName hdl).1 name args).2.2 = some t
        ∧ t.pld = ⟨name, args⟩
        ∧ t.pld.encode = Except.ok data
        ∧ payload.decode data = Except.ok ⟨name, args⟩
        ∧ workerStep (AddHandler st name queueName hdl).1.handlerQueueNames
            (DeqRes.item data) = some evs
        ∧ evs.filter Event.isInvoked = [Event.invoked name args (hdl args)] := by
  have hadd : AddHandler st name queueName hdl =
      ({ st with handlerQueueNames :=
          (name, ⟨hdl, queueName⟩) :: st.handlerQueueNames }, none) := by
    simp [AddHandler, hqreg, hfresh]
  rw [hadd]
  have hlook : mapGet name ((name, (⟨hdl, queueName⟩ : handlerQueueName)) ::
      st.handlerQueueNames) = some ⟨hdl, queueName⟩ := by
    simp [mapGet]
  obtain ⟨ss, hss, hmap⟩ := argStrings_spec args hser
  have henc : (⟨name, args⟩ : payload).encode =
      Except.ok (String.mk
        (List.flatten ((name.data :: ss.map String.data).map encChunk))) := by
    simp [payload.encode, hss]
  have hdec := payload_decode_encode ⟨name, args⟩ _ henc
  refine ⟨rfl, by simp [Trigger, hlook], ?_⟩
  refine ⟨⟨mapGet queueName st.queues, ⟨name, args⟩⟩,
    String.mk (List.flatten ((name.data :: ss.map String.data).map encChunk)), ?_⟩
  cases hh : hdl args with
  | none =>
    refine ⟨[Event.invoked name args none], by simp [Trigger, hlook], rfl, henc, hdec, ?_, ?_⟩
    · rw [workerStep_invoke _ _ ⟨name, args⟩ ⟨hdl, queueName⟩ hdec hlook]
      simp [hh]
    · simp [List.filter, Event.isInvoked, hh]
  | some e =>
    refine ⟨[Event.invoked name args (some e), Event.reported e],
      by simp [Trigger, hlook], rfl, henc, hdec, ?_, ?_⟩
    · rw [workerStep_invoke _ _ ⟨name, args⟩ ⟨hdl, queueName⟩ hdec hlook]
      simp [hh]
    · simp [List.filter, Event.isInvoked, hh]

/-- Witness for C1: the concrete scenario of the spec — queue "mem", fresh
handler "log.error", argument "boom" — yields one invocation with the same
argument list. -/
theorem addhandler_trigger_invokes_once_witness :
    (AddHandler st0 "log.error" "mem" okHandler).2 = none
    ∧ (Trigger (AddHandler st0 "log.error" "mem" okHandler).1
        "log.error" [Arg.str "boom"]).2.1 = none
    ∧ ∃ t data evs,
        (Trigger (AddHandler st0 "log.error" "mem" okHandler).1
          "log.error" [Arg.str "boom"]).2.2 = some t
        ∧ t.pld = ⟨"log.error", [Arg.str "boom"]⟩
        ∧ t.pld.encode = Except.ok data
        ∧ payload.decode data = Except.ok ⟨"log.error", [Arg.str "boom"]⟩
        ∧ workerStep (AddHandler st0 "log.error" "mem" okHandler).1.handlerQueueNames
            (DeqRes.item data) = some evs
        ∧ evs.filter Event.isInvoked =
            [Event.invoked "log.error" [Arg.str "boom"] (okHandler [Arg.str "boom"])] :=
  addhandler_trigger_invokes_once st0 "log.error" "mem" okHandler
    [Arg.str "boom"] memQueue rfl rfl
    (fun _ ha => ⟨"boom", List.mem_singleton.mp ha⟩)
